import Mathlib

/-!
Shallow embedding of the evercore event-sourcing core: the Event/Snapshot
records, the ComposedAggregate wrapper, the EventContext unit of work
(publish/commit/load/add_metadata) and the in-memory reference storage
engine (MemoryStorageEngine).  Rust mutation is modelled by explicit state
passing; fallible calls return an error component.  Opaque serde encoding
of payloads is modelled by storing the payload value itself, and the
metadata HashMap is modelled as an insert-normalised association list.
Rust's truncating `%` agrees with Lean's Int `%` on `== 0` tests (both are
divisibility by the modulus), which is its only use in `publish`.
-/

namespace Evercore

/-- Error type of the event store (the variants the core paths use). -/
inductive EventStoreError where
  | AggregateNotFound : String → Int → EventStoreError
  | EventSerializationError : EventStoreError
  | EventDeserializationError : EventStoreError
  | SnapshotSerializationError : EventStoreError
  | SnapshotDeserializationError : EventStoreError
  | ApplySnapshotError : String → EventStoreError
  | RequestProcessingError : String → EventStoreError
  | ApplyEventError : String → EventStoreError
  | NoContext : EventStoreError
  | StorageEngineErrorOther : String → EventStoreError
  | AggregateInstanceNotFound : EventStoreError
deriving DecidableEq, Repr

/-- Metadata map: model of HashMap(String, String) as an association list
where insert replaces any previous binding of the key. -/
def Metadata := List (String × String)

/-- HashMap insert: bind k to v, removing any previous binding. -/
def hmInsert (m : List (String × String)) (k v : String) : List (String × String) :=
  (k, v) :: m.filter (fun p => p.1 ≠ k)

/-- HashMap get. -/
def hmGet (m : List (String × String)) (k : String) : Option String :=
  (m.find? (fun p => p.1 = k)).map Prod.snd

/-- Event record (evercore/src/event.rs).  `data` holds the domain payload
in place of its opaque JSON encoding; `metadata` holds the map value in
place of its encoding. -/
structure Event (E : Type) where
  aggregate_id : Int
  aggregate_type : String
  version : Int
  event_type : String
  data : E
  metadata : Option (List (String × String))
deriving DecidableEq, Repr

/-- Event::new: build the event with the given fields and no metadata. -/
def Event.new (aggregate_id : Int) (aggregate_type : String) (version : Int)
    (event_type : String) (data : E) : Event E :=
  { aggregate_id := aggregate_id, aggregate_type := aggregate_type,
    version := version, event_type := event_type, data := data,
    metadata := none }

/-- Event::add_metadata: attach (a copy of) the given map to the event. -/
def Event.add_metadata (e : Event E) (metadata : List (String × String)) :
    Event E :=
  { e with metadata := some metadata }

/-- Event::deserialize_metadata: the decoded metadata map, if any. -/
def Event.deserialize_metadata (e : Event E) : Option (List (String × String)) :=
  e.metadata

/-- Snapshot record (eventide/src/snapshot.rs); `data` holds the state
value in place of its opaque encoding. -/
structure Snapshot (S : Type) where
  aggregate_id : Int
  aggregate_type : String
  version : Int
  data : S
deriving DecidableEq, Repr

/-- The minimal domain type behind a ComposedAggregate: the ComposedImpl
trait operations (get_type, apply_event, snapshot_frequency) together with
the Default instance used by new/load. -/
structure Domain (S E : Type) where
  aggregate_type : String
  snapshot_frequency : Int
  apply_event : S → Event E → Except EventStoreError S
  default : S

/-- ComposedAggregate runtime object: id, version and domain state (the
context reference is threaded explicitly by the operations). -/
structure ComposedAggregate (S : Type) where
  id : Int
  version : Int
  state : S
deriving DecidableEq, Repr

/-- ComposedAggregate::apply_snapshot: set version to the snapshot version
and bulk-replace the state by the decoded snapshot data. -/
def ComposedAggregate.apply_snapshot (a : ComposedAggregate S) (sn : Snapshot S) :
    ComposedAggregate S :=
  { a with version := sn.version, state := sn.data }

/-- ComposedAggregate::apply_event: the version is assigned from the event
first; then the domain fold runs, and on failure the error propagates with
the version assignment already performed (as in the source). -/
def ComposedAggregate.apply_event (dom : Domain S E) (a : ComposedAggregate S)
    (e : Event E) : ComposedAggregate S × Option EventStoreError :=
  let a1 : ComposedAggregate S := { a with version := e.version }
  match dom.apply_event a.state e with
  | .ok s => ({ a1 with state := s }, none)
  | .error err => (a1, some err)

/-- ComposedAggregate::take_snapshot: capture id, type, current version and
current state. -/
def ComposedAggregate.take_snapshot (dom : Domain S E) (a : ComposedAggregate S) :
    Snapshot S :=
  { aggregate_id := a.id, aggregate_type := dom.aggregate_type,
    version := a.version, data := a.state }

/-- EventContext buffers: captured snapshots, captured events, and the
metadata map (field `context` in the source). -/
structure EventContext (S E : Type) where
  captured_snapshots : List (Snapshot S)
  captured_events : List (Event E)
  context : List (String × String)
deriving Repr, DecidableEq

/-- EventContext::new. -/
def EventContext.new (S E : Type) : EventContext S E :=
  { captured_snapshots := [], captured_events := [], context := [] }

/-- EventContext::add_metadata: insert into the metadata map. -/
def EventContext.add_metadata (c : EventContext S E) (k v : String) :
    EventContext S E :=
  { c with context := hmInsert c.context k v }

/-- EventContext::publish: build the event at version source.version + 1,
attach a copy of the metadata map when it is non-empty, buffer a snapshot
when the new version hits the snapshot frequency, apply the event to the
aggregate (failure propagates after the snapshot buffering and the version
assignment), and finally buffer the event. -/
def EventContext.publish (dom : Domain S E) (ctx : EventContext S E)
    (source : ComposedAggregate S) (event_type : String) (data : E) :
    EventContext S E × ComposedAggregate S × Option EventStoreError :=
  let new_version := source.version + 1
  let event : Event E :=
    if ctx.context.isEmpty then
      Event.new source.id dom.aggregate_type new_version event_type data
    else
      (Event.new source.id dom.aggregate_type new_version event_type data).add_metadata
        ctx.context
  let snapshot_frequency := dom.snapshot_frequency
  let ctx1 : EventContext S E :=
    if snapshot_frequency > 0 ∧ new_version % snapshot_frequency = 0 then
      { ctx with captured_snapshots :=
          ctx.captured_snapshots ++ [source.take_snapshot dom] }
    else ctx
  match ComposedAggregate.apply_event dom source event with
  | (source1, some err) => (ctx1, source1, some err)
  | (source1, none) =>
      ({ ctx1 with captured_events := ctx1.captured_events ++ [event] },
       source1, none)

/-- State of the in-memory reference engine (eventide/src/memory.rs):
an id counter, the persisted events and snapshots, and the natural-key
map (keyed by the natural key alone, as in the source). -/
structure MemoryStore (S E : Type) where
  id : Int
  events : List (Event E)
  snapshots : List (Snapshot S)
  natural_key_map : List (String × Int)

/-- The empty MemoryStore (MemoryStore::new). -/
def MemoryStore.new (S E : Type) : MemoryStore S E :=
  { id := 0, events := [], snapshots := [], natural_key_map := [] }

/-- HashMap(String, i64) insert used by the natural-key map. -/
def hmInsertInt (m : List (String × Int)) (k : String) (v : Int) :
    List (String × Int) :=
  (k, v) :: m.filter (fun p => p.1 ≠ k)

/-- HashMap(String, i64) get. -/
def hmGetInt (m : List (String × Int)) (k : String) : Option Int :=
  (m.find? (fun p => p.1 = k)).map Prod.snd

/-- MemoryStorageEngine::create_aggregate_instance: increment the counter
and, when a natural key is given, bind it (overwriting any previous
binding; the aggregate type is ignored by the map). -/
def MemoryStore.create_aggregate_instance (ms : MemoryStore S E)
    (_aggregate_type : String) (natural_key : Option String) :
    Int × MemoryStore S E :=
  let id := ms.id + 1
  let ms1 : MemoryStore S E := { ms with id := id }
  match natural_key with
  | some k => (id, { ms1 with natural_key_map := hmInsertInt ms1.natural_key_map k id })
  | none => (id, ms1)

/-- MemoryStorageEngine::get_aggregate_instance_id: look the natural key up
(the aggregate type argument is unused by the source). -/
def MemoryStore.get_aggregate_instance_id (ms : MemoryStore S E)
    (_aggregate_type : String) (natural_key : String) : Option Int :=
  hmGetInt ms.natural_key_map natural_key

/-- MemoryStorageEngine::read_events: the stored events matching the id and
type whose version is strictly greater than the given one, in storage
order. -/
def MemoryStore.read_events (ms : MemoryStore S E) (aggregate_id : Int)
    (aggregate_type : String) (version : Int) : List (Event E) :=
  ms.events.filter (fun e =>
    e.aggregate_id == aggregate_id && e.aggregate_type == aggregate_type &&
      decide (version < e.version))

/-- MemoryStorageEngine::read_snapshot: scan the stored snapshots in
reverse and return the first one matching the id and type. -/
def MemoryStore.read_snapshot (ms : MemoryStore S E) (aggregate_id : Int)
    (aggregate_type : String) : Option (Snapshot S) :=
  ms.snapshots.reverse.find? (fun sn =>
    sn.aggregate_id == aggregate_id && sn.aggregate_type == aggregate_type)

/-- MemoryStorageEngine::write_updates: append the given events, then the
given snapshots. -/
def MemoryStore.write_updates (ms : MemoryStore S E) (events : List (Event E))
    (snapshots : List (Snapshot S)) : MemoryStore S E :=
  { ms with events := ms.events ++ events, snapshots := ms.snapshots ++ snapshots }

/-- EventContext::commit: hand the buffered events and snapshots to
write_updates; the buffers themselves are not cleared. -/
def EventContext.commit (ctx : EventContext S E) (ms : MemoryStore S E) :
    EventContext S E × MemoryStore S E :=
  (ctx, ms.write_updates ctx.captured_events ctx.captured_snapshots)

/-- The event-application loop of EventContext::load: fold the events into
the aggregate, stopping at the first failure (mutations so far persist). -/
def applyEvents (dom : Domain S E) :
    ComposedAggregate S → List (Event E) →
      ComposedAggregate S × Option EventStoreError
  | a, [] => (a, none)
  | a, e :: es =>
    match ComposedAggregate.apply_event dom a e with
    | (a1, some err) => (a1, some err)
    | (a1, none) => applyEvents dom a1 es

/-- EventContext::load: fetch and apply the latest snapshot if any, fetch
the events past the resulting version, fail with AggregateNotFound when
neither was found, otherwise fold the events into the aggregate. -/
def EventContext.load (dom : Domain S E) (ms : MemoryStore S E)
    (aggregate : ComposedAggregate S) :
    ComposedAggregate S × Option EventStoreError :=
  let snapshot := ms.read_snapshot aggregate.id dom.aggregate_type
  let snapshot_found := snapshot.isSome
  let aggregate1 :=
    match snapshot with
    | some sn => aggregate.apply_snapshot sn
    | none => aggregate
  let events := ms.read_events aggregate1.id dom.aggregate_type aggregate1.version
  if ¬snapshot_found ∧ events.isEmpty then
    (aggregate1, some (.AggregateNotFound dom.aggregate_type aggregate1.id))
  else
    applyEvents dom aggregate1 events

/-- A run of successive publish calls through one aggregate object in one
context, stopping at the first failing publish. -/
def publishSeq (dom : Domain S E) :
    EventContext S E → ComposedAggregate S → List (String × E) →
      EventContext S E × ComposedAggregate S × Option EventStoreError
  | ctx, a, [] => (ctx, a, none)
  | ctx, a, (t, d) :: ps =>
    match EventContext.publish dom ctx a t d with
    | (ctx1, a1, some err) => (ctx1, a1, some err)
    | (ctx1, a1, none) => publishSeq dom ctx1 a1 ps

/-- The event a publish call builds for aggregate id, metadata map md,
current version v, event type t and payload d. -/
def mkEvent (dom : Domain S E) (id : Int) (md : List (String × String))
    (v : Int) (t : String) (d : E) : Event E :=
  if md.isEmpty then Event.new id dom.aggregate_type (v + 1) t d
  else (Event.new id dom.aggregate_type (v + 1) t d).add_metadata md

/-- The snapshot batch a publish call buffers at current version v: one
pre-fold snapshot when the new version hits the frequency, else none. -/
def snapIf (dom : Domain S E) (id v : Int) (s : S) : List (Snapshot S) :=
  if dom.snapshot_frequency > 0 ∧ (v + 1) % dom.snapshot_frequency = 0 then
    [{ aggregate_id := id, aggregate_type := dom.aggregate_type,
       version := v, data := s }]
  else []

/-- The events a run of publish calls builds, starting at version v. -/
def mkEvents (dom : Domain S E) (id : Int) (md : List (String × String)) :
    Int → List (String × E) → List (Event E)
  | _, [] => []
  | v, (t, d) :: ps => mkEvent dom id md v t d :: mkEvents dom id md (v + 1) ps

/-- Folding a list of events through the domain fold, stopping at the
first failure. -/
def foldEvents (dom : Domain S E) : S → List (Event E) → Except EventStoreError S
  | s, [] => .ok s
  | s, e :: es =>
    match dom.apply_event s e with
    | .ok s1 => foldEvents dom s1 es
    | .error err => .error err

/-- The snapshots a run of publish calls buffers, starting at version v and
state s (the run stops after the batch of a failing publish). -/
def snapsFrom (dom : Domain S E) (id : Int) (md : List (String × String)) :
    Int → S → List (String × E) → List (Snapshot S)
  | _, _, [] => []
  | v, s, (t, d) :: ps =>
    snapIf dom id v s ++
      match dom.apply_event s (mkEvent dom id md v t d) with
      | .ok s1 => snapsFrom dom id md (v + 1) s1 ps
      | .error _ => []

/-- The list v + 1, v + 2, ..., v + n. -/
def myRange : Int → Nat → List Int
  | _, 0 => []
  | v, n + 1 => (v + 1) :: myRange (v + 1) n

theorem mkEvent_version (dom : Domain S E) (id : Int) (md : List (String × String))
    (v : Int) (t : String) (d : E) : (mkEvent dom id md v t d).version = v + 1 := by
  unfold mkEvent Event.new Event.add_metadata
  split <;> rfl

theorem mkEvent_aggregate_id (dom : Domain S E) (id : Int)
    (md : List (String × String)) (v : Int) (t : String) (d : E) :
    (mkEvent dom id md v t d).aggregate_id = id := by
  unfold mkEvent Event.new Event.add_metadata
  split <;> rfl

theorem mkEvent_aggregate_type (dom : Domain S E) (id : Int)
    (md : List (String × String)) (v : Int) (t : String) (d : E) :
    (mkEvent dom id md v t d).aggregate_type = dom.aggregate_type := by
  unfold mkEvent Event.new Event.add_metadata
  split <;> rfl

theorem mkEvent_metadata (dom : Domain S E) (id : Int)
    (md : List (String × String)) (v : Int) (t : String) (d : E) :
    (mkEvent dom id md v t d).metadata = if md.isEmpty then none else some md := by
  unfold mkEvent Event.new Event.add_metadata
  split <;> simp_all

theorem apply_event_ok (dom : Domain S E) (a : ComposedAggregate S)
    (e : Event E) (s1 : S) (hap : dom.apply_event a.state e = .ok s1) :
    ComposedAggregate.apply_event dom a e =
      ({ a with version := e.version, state := s1 }, none) := by
  unfold ComposedAggregate.apply_event
  rw [hap]

theorem apply_event_err (dom : Domain S E) (a : ComposedAggregate S)
    (e : Event E) (err : EventStoreError)
    (hap : dom.apply_event a.state e = .error err) :
    ComposedAggregate.apply_event dom a e =
      ({ a with version := e.version }, some err) := by
  unfold ComposedAggregate.apply_event
  rw [hap]

theorem publish_ok (dom : Domain S E) (ss : List (Snapshot S))
    (es : List (Event E)) (md : List (String × String)) (id v : Int) (s : S)
    (t : String) (d : E) (s1 : S)
    (hap : dom.apply_event s (mkEvent dom id md v t d) = .ok s1) :
    EventContext.publish dom ⟨ss, es, md⟩ ⟨id, v, s⟩ t d =
      (⟨ss ++ snapIf dom id v s, es ++ [mkEvent dom id md v t d], md⟩,
        ⟨id, v + 1, s1⟩, none) := by
  unfold EventContext.publish
  have hev : (if (List.isEmpty md) then
      Event.new id dom.aggregate_type (v + 1) t d
    else (Event.new id dom.aggregate_type (v + 1) t d).add_metadata md) =
      mkEvent dom id md v t d := rfl
  dsimp only
  rw [hev, apply_event_ok dom ⟨id, v, s⟩ _ s1 hap]
  by_cases hc : dom.snapshot_frequency > 0 ∧ (v + 1) % dom.snapshot_frequency = 0
  · simp only [snapIf, ComposedAggregate.take_snapshot, if_pos hc, mkEvent_version]
  · simp only [snapIf, ComposedAggregate.take_snapshot, if_neg hc, mkEvent_version,
      List.append_nil]

theorem publish_err (dom : Domain S E) (ss : List (Snapshot S))
    (es : List (Event E)) (md : List (String × String)) (id v : Int) (s : S)
    (t : String) (d : E) (err : EventStoreError)
    (hap : dom.apply_event s (mkEvent dom id md v t d) = .error err) :
    EventContext.publish dom ⟨ss, es, md⟩ ⟨id, v, s⟩ t d =
      (⟨ss ++ snapIf dom id v s, es, md⟩, ⟨id, v + 1, s⟩, some err) := by
  unfold EventContext.publish
  have hev : (if (List.isEmpty md) then
      Event.new id dom.aggregate_type (v + 1) t d
    else (Event.new id dom.aggregate_type (v + 1) t d).add_metadata md) =
      mkEvent dom id md v t d := rfl
  dsimp only
  rw [hev, apply_event_err dom ⟨id, v, s⟩ _ err hap]
  by_cases hc : dom.snapshot_frequency > 0 ∧ (v + 1) % dom.snapshot_frequency = 0
  · simp only [snapIf, ComposedAggregate.take_snapshot, if_pos hc, mkEvent_version]
  · simp only [snapIf, ComposedAggregate.take_snapshot, if_neg hc, mkEvent_version,
      List.append_nil]

/-- Characterization of a successful run of publish calls: the context
buffers grow by exactly the events and snapshots of the run, the aggregate
keeps its id, its version advances by the number of publishes, and its
state is the domain fold of the published events. -/
theorem publishSeq_ok (dom : Domain S E) (ps : List (String × E)) :
    ∀ (ss : List (Snapshot S)) (es : List (Event E)) (md : List (String × String))
      (id v : Int) (s : S) (ctx1 : EventContext S E) (a1 : ComposedAggregate S),
      publishSeq dom ⟨ss, es, md⟩ ⟨id, v, s⟩ ps = (ctx1, a1, none) →
      ctx1 = ⟨ss ++ snapsFrom dom id md v s ps, es ++ mkEvents dom id md v ps, md⟩ ∧
      a1.id = id ∧ a1.version = v + ps.length ∧
      foldEvents dom s (mkEvents dom id md v ps) = .ok a1.state := by
  induction ps with
  | nil =>
    intro ss es md id v s ctx1 a1 h
    unfold publishSeq at h
    injection h with hctx hrest
    injection hrest with ha hn
    subst hctx
    subst ha
    refine ⟨by simp [snapsFrom, mkEvents], rfl, by simp, rfl⟩
  | cons pd ps ih =>
    obtain ⟨t, d⟩ := pd
    intro ss es md id v s ctx1 a1 h
    unfold publishSeq at h
    cases hap : dom.apply_event s (mkEvent dom id md v t d) with
    | error err =>
      rw [publish_err dom ss es md id v s t d err hap] at h
      simp at h
    | ok s1 =>
      rw [publish_ok dom ss es md id v s t d s1 hap] at h
      simp only at h
      obtain ⟨hctx, hid, hver, hfold⟩ := ih _ _ _ _ _ _ _ _ h
      refine ⟨?_, hid, ?_, ?_⟩
      · rw [hctx]
        simp [snapsFrom, mkEvents, hap, snapIf]
      · rw [hver]
        simp only [List.length_cons]
        omega
      · simp only [mkEvents, foldEvents, hap]
        exact hfold

theorem mkEvents_fields (dom : Domain S E) (id : Int) (md : List (String × String))
    (ps : List (String × E)) :
    ∀ (v : Int), ∀ e ∈ mkEvents dom id md v ps,
      e.aggregate_id = id ∧ e.aggregate_type = dom.aggregate_type ∧
      v < e.version ∧ e.version ≤ v + ps.length := by
  induction ps with
  | nil => intro v e h; simp [mkEvents] at h
  | cons pd ps ih =>
    obtain ⟨t, d⟩ := pd
    intro v e h
    simp only [mkEvents, List.mem_cons] at h
    rcases h with rfl | h
    · refine ⟨mkEvent_aggregate_id _ _ _ _ _ _, mkEvent_aggregate_type _ _ _ _ _ _, ?_, ?_⟩
      · rw [mkEvent_version]; omega
      · rw [mkEvent_version]; simp only [List.length_cons]; omega
    · obtain ⟨h1, h2, h3, h4⟩ := ih (v + 1) e h
      refine ⟨h1, h2, by omega, ?_⟩
      simp only [List.length_cons]
      omega

theorem mkEvents_filter_all (dom : Domain S E) (id : Int)
    (md : List (String × String)) (ps : List (String × E)) :
    ∀ (v w : Int), w ≤ v →
      (mkEvents dom id md v ps).filter (fun e =>
        e.aggregate_id == id && e.aggregate_type == dom.aggregate_type &&
          decide (w < e.version)) = mkEvents dom id md v ps := by
  induction ps with
  | nil => intro v w _; simp [mkEvents]
  | cons pd ps ih =>
    obtain ⟨t, d⟩ := pd
    intro v w hw
    simp only [mkEvents, List.filter_cons]
    have hc : ((mkEvent dom id md v t d).aggregate_id == id &&
        ((mkEvent dom id md v t d).aggregate_type == dom.aggregate_type) &&
        decide (w < (mkEvent dom id md v t d).version)) = true := by
      simp [mkEvent_aggregate_id, mkEvent_aggregate_type, mkEvent_version]
      omega
    rw [hc]
    simp only [if_true]
    rw [ih (v + 1) w (by omega)]

theorem mkEvents_filter_drop (dom : Domain S E) (id : Int)
    (md : List (String × String)) (ps : List (String × E)) :
    ∀ (v w : Int) (k : Nat), w = v + k →
      (mkEvents dom id md v ps).filter (fun e =>
        e.aggregate_id == id && e.aggregate_type == dom.aggregate_type &&
          decide (w < e.version)) = (mkEvents dom id md v ps).drop k := by
  induction ps with
  | nil => intro v w k _; simp [mkEvents]
  | cons pd ps ih =>
    obtain ⟨t, d⟩ := pd
    intro v w k hk
    cases k with
    | zero =>
      rw [List.drop_zero]
      exact mkEvents_filter_all dom id md ((t, d) :: ps) v w (by simp at hk; omega)
    | succ k1 =>
      have hc : ((mkEvent dom id md v t d).aggregate_id == id &&
          ((mkEvent dom id md v t d).aggregate_type == dom.aggregate_type) &&
          decide (w < (mkEvent dom id md v t d).version)) = false := by
        simp [mkEvent_aggregate_id, mkEvent_aggregate_type, mkEvent_version]
        omega
      simp only [mkEvents, List.filter_cons, hc, if_false, List.drop_succ_cons]
      exact ih (v + 1) w k1 (by omega)

theorem foldEvents_append (dom : Domain S E) (l1 l2 : List (Event E)) :
    ∀ s : S, foldEvents dom s (l1 ++ l2) =
      match foldEvents dom s l1 with
      | .ok s1 => foldEvents dom s1 l2
      | .error err => .error err := by
  induction l1 with
  | nil => intro s; rfl
  | cons e l1 ih =>
    intro s
    simp only [List.cons_append, foldEvents]
    cases dom.apply_event s e with
    | ok s1 => exact ih s1
    | error err => rfl

theorem foldEvents_drop (dom : Domain S E) (l : List (Event E)) (k : Nat)
    (s sk sfin : S) (h1 : foldEvents dom s (l.take k) = .ok sk)
    (h2 : foldEvents dom s l = .ok sfin) :
    foldEvents dom sk (l.drop k) = .ok sfin := by
  have h := foldEvents_append dom (l.take k) (l.drop k) s
  rw [List.take_append_drop, h2, h1] at h
  exact h.symm

theorem applyEvents_ok (dom : Domain S E) (es : List (Event E)) :
    ∀ (a : ComposedAggregate S) (s1 : S),
      foldEvents dom a.state es = .ok s1 →
      applyEvents dom a es =
        (⟨a.id, (es.map (fun e => e.version)).getLastD a.version, s1⟩, none) := by
  induction es with
  | nil =>
    intro a s1 h
    simp only [foldEvents] at h
    injection h with h
    subst h
    rfl
  | cons e es ih =>
    intro a s1 h
    simp only [foldEvents] at h
    cases hap : dom.apply_event a.state e with
    | error err => rw [hap] at h; exact absurd h (by simp)
    | ok s2 =>
      rw [hap] at h
      have hrec := ih ⟨a.id, e.version, s2⟩ s1 h
      simp only [applyEvents]
      rw [apply_event_ok dom a e s2 hap]
      rw [List.map_cons, List.getLastD_cons]
      exact hrec

theorem mkEvents_map_version (dom : Domain S E) (id : Int)
    (md : List (String × String)) (ps : List (String × E)) :
    ∀ v, (mkEvents dom id md v ps).map (fun e => e.version) = myRange v ps.length := by
  induction ps with
  | nil => intro v; rfl
  | cons pd ps ih =>
    obtain ⟨t, d⟩ := pd
    intro v
    simp only [mkEvents, List.map_cons, mkEvent_version, List.length_cons, myRange]
    rw [ih (v + 1)]

theorem myRange_mem : ∀ (n : Nat) (v x : Int), x ∈ myRange v n → v < x ∧ x ≤ v + n := by
  intro n
  induction n with
  | zero => intro v x h; simp [myRange] at h
  | succ m ih =>
    intro v x h
    simp only [myRange, List.mem_cons] at h
    rcases h with rfl | h
    · constructor <;> omega
    · obtain ⟨h1, h2⟩ := ih (v + 1) x h
      constructor <;> omega

theorem myRange_chain : ∀ (n : Nat) (v : Int),
    List.Chain' (fun a b => a < b) (myRange v n) := by
  intro n
  induction n with
  | zero => intro v; simp [myRange]
  | succ m ih =>
    intro v
    simp only [myRange]
    rw [List.chain'_cons']
    refine ⟨?_, ih (v + 1)⟩
    intro y hy
    have hmem : y ∈ myRange (v + 1) m := by
      cases hl : myRange (v + 1) m with
      | nil => rw [hl] at hy; simp at hy
      | cons b l => rw [hl] at hy; simp at hy; simp [hy]
    exact (myRange_mem m (v + 1) y hmem).1

theorem myRange_append : ∀ (a b : Nat) (v : Int),
    myRange v (a + b) = myRange v a ++ myRange (v + a) b := by
  intro a
  induction a with
  | zero => intro b v; simp [myRange]
  | succ m ih =>
    intro b v
    have h1 : m + 1 + b = (m + b) + 1 := by omega
    rw [h1]
    simp only [myRange]
    rw [ih b (v + 1)]
    have h2 : v + 1 + (m : Int) = v + ((m + 1 : Nat) : Int) := by push_cast; ring
    rw [h2]
    rfl

theorem myRange_getLast (n : Nat) (v : Int) :
    (myRange v (n + 1)).getLast? = some (v + (n + 1)) := by
  have h := myRange_append n 1 v
  rw [h]
  have h2 : myRange (v + n) 1 = [v + n + 1] := rfl
  rw [h2, List.getLast?_concat]
  congr 1
  omega

theorem find?_all_true (p : α → Bool) (l : List α) (h : ∀ x ∈ l, p x = true) :
    l.find? p = l.head? := by
  cases l with
  | nil => rfl
  | cons a l =>
    rw [List.find?_cons_of_pos _ (h a (by simp))]
    rfl

/-- Every snapshot buffered during a successful run is a pre-fold snapshot:
it belongs to this aggregate, its version is the version just before some
frequency-hitting publish, and its data is the fold of the events strictly
before that version. -/
theorem snapsFrom_mem (dom : Domain S E) (id : Int) (md : List (String × String)) :
    ∀ (ps : List (String × E)) (v : Int) (s sfin : S),
      foldEvents dom s (mkEvents dom id md v ps) = .ok sfin →
      ∀ sn ∈ snapsFrom dom id md v s ps,
        sn.aggregate_id = id ∧ sn.aggregate_type = dom.aggregate_type ∧
        0 < dom.snapshot_frequency ∧ (sn.version + 1) % dom.snapshot_frequency = 0 ∧
        ∃ k : Nat, k < ps.length ∧ sn.version = v + k ∧
          foldEvents dom s ((mkEvents dom id md v ps).take k) = .ok sn.data := by
  intro ps
  induction ps with
  | nil => intro v s sfin _ sn hsn; simp [snapsFrom] at hsn
  | cons pd ps ih =>
    obtain ⟨t, d⟩ := pd
    intro v s sfin hfold sn hsn
    simp only [snapsFrom] at hsn
    cases hap : dom.apply_event s (mkEvent dom id md v t d) with
    | error err =>
      simp only [mkEvents, foldEvents, hap] at hfold
      exact absurd hfold (by simp)
    | ok s1 =>
      rw [hap] at hsn
      simp only [mkEvents, foldEvents, hap] at hfold
      rw [List.mem_append] at hsn
      rcases hsn with hsn | hsn
      · unfold snapIf at hsn
        by_cases hc : dom.snapshot_frequency > 0 ∧
            (v + 1) % dom.snapshot_frequency = 0
        · rw [if_pos hc] at hsn
          simp only [List.mem_singleton] at hsn
          subst hsn
          refine ⟨rfl, rfl, hc.1, by simpa using hc.2, 0, ?_, by simp, ?_⟩
          · simp only [List.length_cons]; omega
          · simp [foldEvents]
        · rw [if_neg hc] at hsn
          simp at hsn
      · obtain ⟨h1, h2, h3, h4, k, hk, hver, hfold2⟩ :=
          ih (v + 1) s1 sfin hfold sn hsn
        refine ⟨h1, h2, h3, h4, k + 1, ?_, by omega, ?_⟩
        · simp only [List.length_cons]; omega
        · simp only [mkEvents, List.take_succ_cons, foldEvents, hap]
          exact hfold2

/-- Under a run in which every fold succeeds, the number of buffered
snapshots is the number of frequency multiples among the new versions. -/
theorem snapsFrom_length (dom : Domain S E) (id : Int) (md : List (String × String)) :
    ∀ (ps : List (String × E)) (v : Int) (s sfin : S),
      foldEvents dom s (mkEvents dom id md v ps) = .ok sfin →
      0 < dom.snapshot_frequency →
      (snapsFrom dom id md v s ps).length =
        ((myRange v ps.length).filter
          (fun j => decide (j % dom.snapshot_frequency = 0))).length := by
  intro ps
  induction ps with
  | nil => intro v s sfin _ _; simp [snapsFrom, myRange]
  | cons pd ps ih =>
    obtain ⟨t, d⟩ := pd
    intro v s sfin hfold hfreq
    simp only [snapsFrom]
    cases hap : dom.apply_event s (mkEvent dom id md v t d) with
    | error err =>
      simp only [mkEvents, foldEvents, hap] at hfold
      exact absurd hfold (by simp)
    | ok s1 =>
      simp only [mkEvents, foldEvents, hap] at hfold
      simp only [List.length_append, List.length_cons, myRange, List.filter_cons]
      rw [ih (v + 1) s1 sfin hfold hfreq]
      unfold snapIf
      by_cases hc : (v + 1) % dom.snapshot_frequency = 0
      · simp [snapIf, hfreq, hc]
        omega
      · simp [snapIf, hc]

/-- read_snapshot over a store whose snapshot list is a non-matching part
followed by an all-matching part returns the last element of the matching
part. -/
theorem read_snapshot_split (ms : MemoryStore S E) (id : Int) (ty : String)
    (A B : List (Snapshot S)) (hAB : ms.snapshots = A ++ B)
    (hA : ∀ x ∈ A, (x.aggregate_id == id && x.aggregate_type == ty) = false)
    (hB : ∀ x ∈ B, (x.aggregate_id == id && x.aggregate_type == ty) = true) :
    ms.read_snapshot id ty = B.getLast? := by
  unfold MemoryStore.read_snapshot
  rw [hAB, List.reverse_append, List.find?_append]
  rw [find?_all_true _ _ (fun x hx => hB x (List.mem_reverse.mp hx))]
  rw [List.head?_reverse]
  have hAn : A.reverse.find?
      (fun sn => sn.aggregate_id == id && sn.aggregate_type == ty) = none := by
    rw [List.find?_eq_none]
    intro x hx
    rw [hA x (List.mem_reverse.mp hx)]
    simp
  rw [hAn, Option.or_none]

/-- No multiple of f occurs among v + 1, ..., v + m when v is a multiple of
f and m < f. -/
theorem myRange_no_mult (f : Int) (_hf : 0 < f) (v : Int) (hv : v % f = 0) :
    ∀ (m : Nat), (m : Int) < f →
      (myRange v m).filter (fun j => decide (j % f = 0)) = [] := by
  intro m hm
  rw [List.filter_eq_nil_iff]
  intro x hx
  obtain ⟨h1, h2⟩ := myRange_mem m v x hx
  have h3 : x % f = (x - v) % f := by
    conv_lhs => rw [show x = x - v + v by ring]
    rw [Int.add_emod, hv, add_zero, Int.emod_emod_of_dvd _ dvd_rfl]
  have h4 : (x - v) % f = x - v := Int.emod_eq_of_lt (by omega) (by omega)
  simp only [decide_eq_true_eq]
  omega

/-- Exactly one multiple of f occurs among v + 1, ..., v + f when v is a
multiple of f: the endpoint v + f. -/
theorem myRange_block (f : Nat) (hf : 0 < f) (v : Int) (hv : v % (f : Int) = 0) :
    (myRange v f).filter (fun j => decide (j % (f : Int) = 0)) = [v + f] := by
  obtain ⟨g, rfl⟩ : ∃ g, f = g + 1 := ⟨f - 1, by omega⟩
  rw [myRange_append g 1 v, List.filter_append]
  rw [myRange_no_mult ((g + 1 : Nat) : Int) (by exact_mod_cast hf) v hv g
    (by exact_mod_cast Nat.lt_succ_self g)]
  have h1 : myRange (v + (g : Int)) 1 = [v + (g : Int) + 1] := rfl
  rw [h1]
  have h2 : (v + (g : Int) + 1) % ((g + 1 : Nat) : Int) = 0 := by
    have h3 : v + (g : Int) + 1 = v + ((g + 1 : Nat) : Int) := by push_cast; ring
    rw [h3, Int.add_emod, hv, Int.emod_self]
    simp
  rw [List.nil_append]
  have h4 : List.filter (fun j => decide (j % ((g + 1 : Nat) : Int) = 0))
      [v + (g : Int) + 1] = [v + (g : Int) + 1] := by
    simp only [List.filter_cons, List.filter_nil, h2]
    norm_num
  rw [h4]
  congr 1
  push_cast
  ring

/-- Among v + 1, ..., v + k·f there are exactly k multiples of f, when v is
a multiple of f. -/
theorem count_multiples (f : Nat) (hf : 0 < f) :
    ∀ (k : Nat) (v : Int), v % (f : Int) = 0 →
      ((myRange v (k * f)).filter (fun j => decide (j % (f : Int) = 0))).length = k := by
  intro k
  induction k with
  | zero => intro v hv; simp [myRange]
  | succ m ih =>
    intro v hv
    have hsplit : (m + 1) * f = f + m * f := by ring
    rw [hsplit, myRange_append, List.filter_append, List.length_append]
    rw [myRange_block f hf v hv]
    have hv2 : (v + (f : Int)) % (f : Int) = 0 := by
      rw [Int.add_emod, hv, Int.emod_self]
      simp
    rw [ih (v + (f : Int)) hv2]
    simp only [List.length_singleton]
    omega

/-- Number of snapshots the store holds for the given aggregate id and
type (the count the repository asserts on the memory engine). -/
def snapshot_count_for (ms : MemoryStore S E) (id : Int) (ty : String) : Nat :=
  (ms.snapshots.filter (fun sn =>
    sn.aggregate_id == id && sn.aggregate_type == ty)).length

theorem myRange_length : ∀ (n : Nat) (v : Int), (myRange v n).length = n := by
  intro n
  induction n with
  | zero => intro v; rfl
  | succ m ih => intro v; simp only [myRange, List.length_cons, ih (v + 1)]

theorem myRange_drop : ∀ (n k : Nat) (v : Int),
    (myRange v n).drop k = myRange (v + k) (n - k) := by
  intro n
  induction n with
  | zero => intro k v; simp [myRange]
  | succ m ih =>
    intro k v
    cases k with
    | zero => simp [myRange]
    | succ k1 =>
      simp only [myRange, List.drop_succ_cons]
      rw [ih k1 (v + 1)]
      congr 1 <;> omega

theorem mkEvents_length (dom : Domain S E) (id : Int) (md : List (String × String))
    (ps : List (String × E)) (v : Int) :
    (mkEvents dom id md v ps).length = ps.length := by
  have h := congrArg List.length (mkEvents_map_version dom id md ps v)
  simpa [myRange_length] using h

theorem mem_of_getLast? {l : List α} {x : α} (h : l.getLast? = some x) : x ∈ l := by
  rw [← List.head?_reverse] at h
  have hm : x ∈ l.reverse := by
    cases hl : l.reverse with
    | nil => rw [hl] at h; simp at h
    | cons b t =>
      rw [hl] at h
      simp only [List.head?_cons, Option.some.injEq] at h
      subst h
      simp
  exact List.mem_reverse.mp hm

/-- A failed event-application loop fails inside some domain fold. -/
theorem applyEvents_error_src (dom : Domain S E) :
    ∀ (es : List (Event E)) (a : ComposedAggregate S) (err : EventStoreError),
      (applyEvents dom a es).2 = some err →
      ∃ s e, dom.apply_event s e = .error err := by
  intro es
  induction es with
  | nil => intro a err h; simp [applyEvents] at h
  | cons e es ih =>
    intro a err h
    simp only [applyEvents] at h
    cases hap : dom.apply_event a.state e with
    | error err2 =>
      rw [apply_event_err dom a e err2 hap] at h
      simp only at h
      injection h with h
      subst h
      exact ⟨a.state, e, hap⟩
    | ok s2 =>
      rw [apply_event_ok dom a e s2 hap] at h
      exact ih _ err h

theorem find?_eq_head_filter (p : α → Bool) : ∀ (l : List α),
    l.find? p = (l.filter p).head? := by
  intro l
  induction l with
  | nil => rfl
  | cons a l ih =>
    cases hp : p a with
    | true => rw [List.find?_cons_of_pos _ hp, List.filter_cons, hp]; rfl
    | false =>
      rw [List.find?_cons_of_neg _ (by simp [hp]), List.filter_cons, hp]
      simp only [Bool.false_eq_true, if_false]
      exact ih

/-- Concrete account domain payload used for concrete evaluations: the
credit/debit events of the repository test suite. -/
inductive AcctEvent where
  | credit : Int → AcctEvent
  | debit : Int → AcctEvent
deriving DecidableEq, Repr

/-- Account fold: credit adds, debit subtracts and rejects overdrafts with
a domain error, as the repository test domain does. -/
def acctApply (s : Int) (e : Event AcctEvent) : Except EventStoreError Int :=
  match e.data with
  | .credit n => .ok (s + n)
  | .debit n =>
    if n > s then .error (.RequestProcessingError "Insufficient funds")
    else .ok (s - n)

/-- Concrete account domain with snapshot frequency 2. -/
def acctDom : Domain Int AcctEvent :=
  { aggregate_type := "account", snapshot_frequency := 2,
    apply_event := acctApply, default := 0 }

/-- C10: commit hands the buffered events and snapshots to write_updates
but never clears the buffers: the context coming out of a successful commit
holds the same buffers, and committing a second time submits the whole
batch again, persisting every buffered event and snapshot twice. -/
theorem c10_commit_never_clears (ctx : EventContext S E) (ms : MemoryStore S E) :
    (ctx.commit ms).1 = ctx ∧
    ((ctx.commit ms).1.commit (ctx.commit ms).2).2.events =
      ms.events ++ ctx.captured_events ++ ctx.captured_events ∧
    ((ctx.commit ms).1.commit (ctx.commit ms).2).2.snapshots =
      ms.snapshots ++ ctx.captured_snapshots ++ ctx.captured_snapshots :=
  ⟨rfl, rfl, rfl⟩

/-- C3: on the in-memory engine, creating an aggregate instance twice with
the same (type, natural key) does not resolve to the first id: each call
allocates a fresh id, the second call overwrites the natural-key binding,
and the lookup afterwards returns the id of the second call. -/
theorem c3_natural_key_reallocation :
    ((MemoryStore.new Int AcctEvent).create_aggregate_instance "account"
      (some "chavez_account")).1 = 1 ∧
    ((((MemoryStore.new Int AcctEvent).create_aggregate_instance "account"
      (some "chavez_account")).2).create_aggregate_instance "account"
      (some "chavez_account")).1 = 2 ∧
    (((((MemoryStore.new Int AcctEvent).create_aggregate_instance "account"
      (some "chavez_account")).2).create_aggregate_instance "account"
      (some "chavez_account")).2).get_aggregate_instance_id "account"
      "chavez_account" = some 2 := by
  refine ⟨rfl, rfl, ?_⟩
  decide

/-- C2: a publish whose apply_event step fails does mutate state: at
version 1 with balance 0 and snapshot frequency 2, a rejected overdraft
leaves the aggregate at version 2 (incremented) and pushes a snapshot into
the context buffer, while the event buffer and the domain state stay
unchanged and the domain error is returned. -/
theorem c2_failed_publish_mutates :
    EventContext.publish acctDom (EventContext.new Int AcctEvent) ⟨1, 1, 0⟩
        "withdraw" (.debit 10) =
      (⟨[⟨1, "account", 1, 0⟩], [], []⟩, ⟨1, 2, 0⟩,
        some (.RequestProcessingError "Insufficient funds")) := by
  decide

/-- A store holding a version-2 snapshot stored before a version-1
snapshot of the same aggregate. -/
def c7store : MemoryStore Int AcctEvent :=
  { id := 0, events := [],
    snapshots := [⟨1, "account", 2, 7⟩, ⟨1, "account", 1, 3⟩],
    natural_key_map := [] }

/-- C7 counterexample: on c7store, read_snapshot returns the version-1
snapshot although a matching snapshot with the higher version 2 exists. -/
theorem c7_counterexample :
    c7store.read_snapshot 1 "account" = some ⟨1, "account", 1, 3⟩ ∧
    (⟨1, "account", 2, 7⟩ : Snapshot Int) ∈ c7store.snapshots ∧
    (1 : Int) < 2 := by
  refine ⟨by decide, by decide, by decide⟩

/-- C7 amended: read_snapshot returns the most recently stored snapshot
among those matching the aggregate id and type (the last by insertion
order), and returns none exactly when no snapshot matches. -/
theorem c7_read_snapshot_last_inserted (ms : MemoryStore S E) (id : Int)
    (ty : String) :
    ms.read_snapshot id ty =
      (ms.snapshots.filter (fun sn =>
        sn.aggregate_id == id && sn.aggregate_type == ty)).getLast? ∧
    (ms.read_snapshot id ty = none ↔
      ∀ sn ∈ ms.snapshots,
        ¬(sn.aggregate_id = id ∧ sn.aggregate_type = ty)) := by
  have h1 : ms.read_snapshot id ty =
      (ms.snapshots.filter (fun sn =>
        sn.aggregate_id == id && sn.aggregate_type == ty)).getLast? := by
    unfold MemoryStore.read_snapshot
    rw [find?_eq_head_filter, List.filter_reverse, List.head?_reverse]
  refine ⟨h1, ?_⟩
  rw [h1, List.getLast?_eq_none_iff, List.filter_eq_nil_iff]
  constructor
  · intro h sn hsn hand
    have hb := h sn hsn
    simp [hand.1, hand.2] at hb
  · intro h sn hsn
    simp only [Bool.and_eq_true, beq_iff_eq, not_and]
    intro h1 h2
    exact h sn hsn ⟨h1, h2⟩

/-- C6: an event published through a context carries a copy of the
metadata map as of publish time: a key added before the publish decodes
from the event; add_metadata afterwards leaves the buffered events
untouched; and a context whose map was never filled publishes events with
no metadata. -/
theorem c6_metadata_copy (dom : Domain S E) (ctx : EventContext S E)
    (a : ComposedAggregate S) (t : String) (d : E) :
    (∀ (k v : String) (ctx1 : EventContext S E) (a1 : ComposedAggregate S),
      EventContext.publish dom ctx a t d = (ctx1, a1, none) →
      hmGet ctx.context k = some v →
      ∃ ev : Event E, ctx1.captured_events = ctx.captured_events ++ [ev] ∧
        ∃ m, ev.deserialize_metadata = some m ∧ m = ctx.context ∧
          hmGet m k = some v) ∧
    (∀ (k2 v2 : String),
      (ctx.add_metadata k2 v2).captured_events = ctx.captured_events) ∧
    (∀ (ctx1 : EventContext S E) (a1 : ComposedAggregate S),
      ctx.context = [] →
      EventContext.publish dom ctx a t d = (ctx1, a1, none) →
      ∃ ev : Event E, ctx1.captured_events = ctx.captured_events ++ [ev] ∧
        ev.deserialize_metadata = none) := by
  obtain ⟨ss, es, md⟩ := ctx
  obtain ⟨aid, av, as⟩ := a
  refine ⟨?_, fun k2 v2 => rfl, ?_⟩
  · intro k v ctx1 a1 hpub hget
    cases hap : dom.apply_event as (mkEvent dom aid md av t d) with
    | error err =>
      rw [publish_err dom ss es md aid av as t d err hap] at hpub
      simp at hpub
    | ok s1 =>
      rw [publish_ok dom ss es md aid av as t d s1 hap] at hpub
      injection hpub with h1 h2
      subst h1
      refine ⟨mkEvent dom aid md av t d, rfl, md, ?_, rfl, hget⟩
      unfold Event.deserialize_metadata
      rw [mkEvent_metadata]
      cases md with
      | nil => simp [hmGet] at hget
      | cons p m => rfl
  · intro ctx1 a1 hmd hpub
    simp only at hmd
    subst hmd
    cases hap : dom.apply_event as (mkEvent dom aid [] av t d) with
    | error err =>
      rw [publish_err dom ss es [] aid av as t d err hap] at hpub
      simp at hpub
    | ok s1 =>
      rw [publish_ok dom ss es [] aid av as t d s1 hap] at hpub
      injection hpub with h1 h2
      subst h1
      refine ⟨mkEvent dom aid [] av t d, rfl, ?_⟩
      unfold Event.deserialize_metadata
      rw [mkEvent_metadata]
      rfl

/-- C6 witness: the metadata scenario of the test suite evaluated on the
account domain, applying c6_metadata_copy at concrete inputs. -/
theorem c6_metadata_copy_witness :
    (∃ ev : Event AcctEvent,
      (EventContext.publish acctDom ⟨[], [], [("user", "chavez")]⟩ ⟨1, 0, 0⟩
        "credited" (.credit 5)).1.captured_events = [] ++ [ev] ∧
      ∃ m, ev.deserialize_metadata = some m ∧ m = [("user", "chavez")] ∧
        hmGet m "user" = some "chavez") ∧
    (∃ ev : Event AcctEvent,
      (EventContext.publish acctDom ⟨[], [], []⟩ ⟨1, 0, 0⟩
        "credited" (.credit 5)).1.captured_events = [] ++ [ev] ∧
      ev.deserialize_metadata = none) := by
  obtain ⟨h1, _h2, _h3⟩ := c6_metadata_copy acctDom
    ⟨[], [], [("user", "chavez")]⟩ ⟨1, 0, 0⟩ "credited" (.credit 5)
  obtain ⟨_g1, _g2, g3⟩ := c6_metadata_copy acctDom
    ⟨[], [], []⟩ ⟨1, 0, 0⟩ "credited" (.credit 5)
  constructor
  · exact h1 "user" "chavez" _ _ rfl (by decide)
  · exact g3 _ _ rfl rfl

/-- C5: publish assigns each event the source version plus one; over a
successful run through one aggregate the buffered events of that
(aggregate id, aggregate type) carry the consecutive versions v + 1, ...,
v + n, hence strictly increasing; and the storage engine persists the
buffered events verbatim, never reassigning versions. -/
theorem c5_version_assignment (dom : Domain S E) (ss : List (Snapshot S))
    (es : List (Event E)) (md : List (String × String)) (id v : Int) (s : S)
    (ps : List (String × E)) (ctx1 : EventContext S E)
    (a1 : ComposedAggregate S)
    (hrun : publishSeq dom ⟨ss, es, md⟩ ⟨id, v, s⟩ ps = (ctx1, a1, none))
    (hes : es.filter (fun e =>
      e.aggregate_id == id && e.aggregate_type == dom.aggregate_type) = []) :
    (∀ (c : EventContext S E) (b : ComposedAggregate S) (t : String) (d : E)
      (c1 : EventContext S E) (b1 : ComposedAggregate S),
      EventContext.publish dom c b t d = (c1, b1, none) →
      ∃ ev : Event E, c1.captured_events = c.captured_events ++ [ev] ∧
        ev.version = b.version + 1) ∧
    ((ctx1.captured_events.filter (fun e =>
        e.aggregate_id == id && e.aggregate_type == dom.aggregate_type)).map
      (fun e => e.version) = myRange v ps.length) ∧
    List.Chain' (fun x y => x < y)
      ((ctx1.captured_events.filter (fun e =>
        e.aggregate_id == id && e.aggregate_type == dom.aggregate_type)).map
      (fun e => e.version)) ∧
    (∀ ms : MemoryStore S E,
      (ms.write_updates ctx1.captured_events ctx1.captured_snapshots).events =
        ms.events ++ ctx1.captured_events) := by
  have hfilter : (ctx1.captured_events.filter (fun e =>
      e.aggregate_id == id && e.aggregate_type == dom.aggregate_type)).map
      (fun e => e.version) = myRange v ps.length := by
    obtain ⟨hctx, _hid, _hver, _hfold⟩ :=
      publishSeq_ok dom ps ss es md id v s ctx1 a1 hrun
    rw [hctx]
    simp only [List.filter_append, hes, List.nil_append]
    rw [List.filter_eq_self.mpr ?hall]
    case hall =>
      intro e he
      obtain ⟨h1, h2, _, _⟩ := mkEvents_fields dom id md ps v e he
      simp [h1, h2]
    exact mkEvents_map_version dom id md ps v
  refine ⟨?_, hfilter, ?_, fun ms => rfl⟩
  · intro c b t d c1 b1 hpub
    obtain ⟨css, ces, cmd⟩ := c
    obtain ⟨bid, bv, bs⟩ := b
    cases hap : dom.apply_event bs (mkEvent dom bid cmd bv t d) with
    | error err =>
      rw [publish_err dom css ces cmd bid bv bs t d err hap] at hpub
      simp at hpub
    | ok s1 =>
      rw [publish_ok dom css ces cmd bid bv bs t d s1 hap] at hpub
      injection hpub with h1 h2
      subst h1
      exact ⟨mkEvent dom bid cmd bv t d, rfl, mkEvent_version dom bid cmd bv t d⟩
  · rw [hfilter]
    exact myRange_chain ps.length v

/-- C5 witness: a run of three successful publishes on the account domain
produces buffered versions 1, 2, 3. -/
theorem c5_version_assignment_witness :
    ((⟨[⟨1, "account", 1, 5⟩],
      [⟨1, "account", 1, "credited", .credit 5, none⟩,
       ⟨1, "account", 2, "credited", .credit 7, none⟩,
       ⟨1, "account", 3, "debited", .debit 2, none⟩], []⟩ :
        EventContext Int AcctEvent).captured_events.filter (fun e =>
      e.aggregate_id == 1 && e.aggregate_type == acctDom.aggregate_type)).map
      (fun e => e.version) = myRange 0 3 := by
  have h := c5_version_assignment acctDom [] [] [] 1 0 0
    [("credited", .credit 5), ("credited", .credit 7), ("debited", .debit 2)]
    ⟨[⟨1, "account", 1, 5⟩],
      [⟨1, "account", 1, "credited", .credit 5, none⟩,
       ⟨1, "account", 2, "credited", .credit 7, none⟩,
       ⟨1, "account", 3, "debited", .debit 2, none⟩], []⟩
    ⟨1, 3, 10⟩ (by decide) rfl
  exact h.2.1

/-- C8: for a domain whose fold never emits AggregateNotFound itself,
hydration fails with AggregateNotFound exactly when the store returns
neither a snapshot nor any event for the aggregate, and in that case the
aggregate comes back with no snapshot or event applied. -/
theorem c8_aggregate_not_found (dom : Domain S E) (ms : MemoryStore S E)
    (a : ComposedAggregate S)
    (hdom : ∀ (s : S) (e : Event E) (ty : String) (i : Int),
      dom.apply_event s e ≠ .error (.AggregateNotFound ty i)) :
    ((EventContext.load dom ms a).2 =
        some (.AggregateNotFound dom.aggregate_type a.id) ↔
      (ms.read_snapshot a.id dom.aggregate_type = none ∧
        ms.read_events a.id dom.aggregate_type a.version = [])) ∧
    (ms.read_snapshot a.id dom.aggregate_type = none →
      ms.read_events a.id dom.aggregate_type a.version = [] →
      EventContext.load dom ms a =
        (a, some (.AggregateNotFound dom.aggregate_type a.id))) := by
  have hnever : ∀ (b : ComposedAggregate S) (evs : List (Event E)),
      (applyEvents dom b evs).2 ≠
        some (.AggregateNotFound dom.aggregate_type a.id) := by
    intro b evs h
    obtain ⟨s, e, hap⟩ := applyEvents_error_src dom evs b _ h
    exact hdom s e dom.aggregate_type a.id hap
  unfold EventContext.load
  cases hsn : ms.read_snapshot a.id dom.aggregate_type with
  | some sn =>
    simp only [Option.isSome_some, not_true, false_and, if_false]
    constructor
    · constructor
      · intro h
        exact absurd h (hnever _ _)
      · intro h
        exact absurd h.1 (by simp [hsn])
    · intro h
      exact absurd h (by simp [hsn])
  | none =>
    simp only [Option.isSome_none, Bool.false_eq_true, not_false_iff, true_and]
    cases hev : ms.read_events a.id dom.aggregate_type a.version with
    | nil => simp
    | cons e evs =>
      simp only [List.isEmpty_cons, if_false]
      constructor
      · constructor
        · intro h
          exact absurd h (hnever _ _)
        · intro h
          exact absurd h (by simp)
      · intro _ h
        exact absurd h (by simp)

/-- C8 witness: loading id 1 of the account domain from the empty store
fails with AggregateNotFound and returns the aggregate unchanged. -/
theorem c8_aggregate_not_found_witness :
    EventContext.load acctDom (MemoryStore.new Int AcctEvent) ⟨1, 0, 0⟩ =
      (⟨1, 0, 0⟩, some (.AggregateNotFound "account" 1)) := by
  have hdom : ∀ (s : Int) (e : Event AcctEvent) (ty : String) (i : Int),
      acctDom.apply_event s e ≠ .error (.AggregateNotFound ty i) := by
    intro s e ty i h
    unfold acctDom acctApply at h
    simp only at h
    split at h
    · simp at h
    · split at h <;> simp at h
  exact (c8_aggregate_not_found acctDom (MemoryStore.new Int AcctEvent)
    ⟨1, 0, 0⟩ hdom).2 rfl rfl

/-- C9: the snapshot a frequency-hitting publish buffers is taken before
the triggering event is folded: it carries version new_version - 1 and the
pre-fold state; read_events returns only events of strictly greater
version; and replaying any buffered snapshot with the captured events of
greater version reproduces the final aggregate state of the run. -/
theorem c9_snapshot_before_fold (dom : Domain S E)
    (md : List (String × String)) (id : Int) (ps : List (String × E))
    (ctx1 : EventContext S E) (a1 : ComposedAggregate S)
    (hrun : publishSeq dom ⟨[], [], md⟩ ⟨id, 0, dom.default⟩ ps =
      (ctx1, a1, none)) :
    (∀ (c : EventContext S E) (b : ComposedAggregate S) (t : String) (d : E)
      (c1 : EventContext S E) (b1 : ComposedAggregate S)
      (r : Option EventStoreError),
      EventContext.publish dom c b t d = (c1, b1, r) →
      0 < dom.snapshot_frequency →
      (b.version + 1) % dom.snapshot_frequency = 0 →
      c1.captured_snapshots = c.captured_snapshots ++
        [⟨b.id, dom.aggregate_type, b.version, b.state⟩]) ∧
    (∀ (ms : MemoryStore S E) (w : Int) (e : Event E),
      e ∈ ms.read_events id dom.aggregate_type w → w < e.version) ∧
    (∀ sn ∈ ctx1.captured_snapshots,
      (sn.version + 1) % dom.snapshot_frequency = 0 ∧
      foldEvents dom sn.data (ctx1.captured_events.filter (fun e =>
        e.aggregate_id == id && e.aggregate_type == dom.aggregate_type &&
          decide (sn.version < e.version))) = .ok a1.state) := by
  obtain ⟨hctx, _hid, _hver, hfold⟩ :=
    publishSeq_ok dom ps [] [] md id 0 dom.default ctx1 a1 hrun
  refine ⟨?_, ?_, ?_⟩
  · intro c b t d c1 b1 r hpub hfreq hmod
    obtain ⟨css, ces, cmd⟩ := c
    obtain ⟨bid, bv, bs⟩ := b
    have hsnap : snapIf dom bid bv bs =
        [⟨bid, dom.aggregate_type, bv, bs⟩] := by
      unfold snapIf
      rw [if_pos ⟨hfreq, hmod⟩]
    cases hap : dom.apply_event bs (mkEvent dom bid cmd bv t d) with
    | error err =>
      rw [publish_err dom css ces cmd bid bv bs t d err hap] at hpub
      injection hpub with h1 h2
      subst h1
      simp [hsnap]
    | ok s1 =>
      rw [publish_ok dom css ces cmd bid bv bs t d s1 hap] at hpub
      injection hpub with h1 h2
      subst h1
      simp [hsnap]
  · intro ms w e he
    unfold MemoryStore.read_events at he
    have hm := (List.mem_filter.mp he).2
    simp only [Bool.and_eq_true, decide_eq_true_eq] at hm
    exact hm.2
  · intro sn hsn
    rw [hctx] at hsn
    simp only [List.nil_append] at hsn
    obtain ⟨_f1, _f2, _f3, f4, k, _hk, hkv, hfold2⟩ :=
      snapsFrom_mem dom id md ps 0 dom.default a1.state hfold sn hsn
    refine ⟨f4, ?_⟩
    rw [hctx]
    simp only [List.nil_append]
    rw [mkEvents_filter_drop dom id md ps 0 sn.version k (by omega)]
    exact foldEvents_drop dom (mkEvents dom id md 0 ps) k dom.default
      sn.data a1.state hfold2 hfold

/-- C9 witness: on the account domain (frequency 2), the publish raising
version 1 to 2 buffers the pre-fold snapshot at version 1. -/
theorem c9_snapshot_before_fold_witness :
    (EventContext.publish acctDom (EventContext.new Int AcctEvent) ⟨1, 1, 1⟩
      "credited" (.credit 2)).1.captured_snapshots =
      [] ++ [⟨1, "account", 1, 1⟩] := by
  have h := c9_snapshot_before_fold acctDom [] 1
    [("credited", .credit 1), ("credited", .credit 2)]
    ⟨[⟨1, "account", 1, 1⟩],
     [⟨1, "account", 1, "credited", .credit 1, none⟩,
      ⟨1, "account", 2, "credited", .credit 2, none⟩], []⟩
    ⟨1, 2, 3⟩ (by decide)
  exact h.1 (EventContext.new Int AcctEvent) ⟨1, 1, 1⟩ "credited" (.credit 2)
    _ _ _ rfl (by decide) (by decide)

/-- C4: with snapshot frequency f > 0, a successful run of exactly k·f
publishes starting at version 0, followed by commit, leaves exactly k
snapshots for that aggregate in the storage engine. -/
theorem c4_snapshot_count (dom : Domain S E) (f k : Nat) (hf : 0 < f)
    (hfreq : dom.snapshot_frequency = (f : Int)) (md : List (String × String))
    (id : Int) (s : S) (ps : List (String × E)) (hlen : ps.length = k * f)
    (s0 : MemoryStore S E)
    (hsn : ∀ sn ∈ s0.snapshots,
      ¬(sn.aggregate_id = id ∧ sn.aggregate_type = dom.aggregate_type))
    (ctx1 : EventContext S E) (a1 : ComposedAggregate S)
    (hrun : publishSeq dom ⟨[], [], md⟩ ⟨id, 0, s⟩ ps = (ctx1, a1, none)) :
    snapshot_count_for (ctx1.commit s0).2 id dom.aggregate_type = k := by
  obtain ⟨hctx, _hid, _hver, hfold⟩ :=
    publishSeq_ok dom ps [] [] md id 0 s ctx1 a1 hrun
  subst hctx
  unfold snapshot_count_for EventContext.commit MemoryStore.write_updates
  simp only [List.nil_append]
  rw [List.filter_append, List.length_append]
  have hz : s0.snapshots.filter (fun sn =>
      sn.aggregate_id == id && sn.aggregate_type == dom.aggregate_type) = [] := by
    rw [List.filter_eq_nil_iff]
    intro x hx
    have hxn := hsn x hx
    simp only [Bool.and_eq_true, beq_iff_eq]
    tauto
  have hall : (snapsFrom dom id md 0 s ps).filter (fun sn =>
      sn.aggregate_id == id && sn.aggregate_type == dom.aggregate_type) =
      snapsFrom dom id md 0 s ps := by
    rw [List.filter_eq_self]
    intro sn hsnm
    obtain ⟨f1, f2, _, _, _⟩ :=
      snapsFrom_mem dom id md ps 0 s a1.state hfold sn hsnm
    simp [f1, f2]
  rw [hz, hall]
  simp only [List.length_nil, Nat.zero_add]
  rw [snapsFrom_length dom id md ps 0 s a1.state hfold
    (by rw [hfreq]; exact_mod_cast hf)]
  simp only [hfreq, hlen]
  exact count_multiples f hf k 0 (by simp)

/-- C4 witness: two publishes at frequency 2 followed by commit leave
exactly one snapshot for the aggregate in the store. -/
theorem c4_snapshot_count_witness :
    snapshot_count_for
      ((⟨[⟨1, "account", 1, 1⟩],
        [⟨1, "account", 1, "credited", .credit 1, none⟩,
         ⟨1, "account", 2, "credited", .credit 2, none⟩], []⟩ :
          EventContext Int AcctEvent).commit
        (MemoryStore.new Int AcctEvent)).2 1 acctDom.aggregate_type = 1 := by
  refine c4_snapshot_count acctDom 2 1 (by norm_num) rfl [] 1 0
    [("credited", .credit 1), ("credited", .credit 2)] rfl
    (MemoryStore.new Int AcctEvent) ?_ _ ⟨1, 2, 3⟩ (by decide)
  intro sn hsn
  simp [MemoryStore.new] at hsn

theorem load_no_snapshot (dom : Domain S E) (ms : MemoryStore S E)
    (agg : ComposedAggregate S) (evs : List (Event E))
    (hrs : ms.read_snapshot agg.id dom.aggregate_type = none)
    (hre : ms.read_events agg.id dom.aggregate_type agg.version = evs)
    (hne : evs ≠ []) :
    EventContext.load dom ms agg = applyEvents dom agg evs := by
  have hie : evs.isEmpty = false := by
    cases evs with
    | nil => exact absurd rfl hne
    | cons e l => rfl
  unfold EventContext.load
  rw [hrs]
  simp only [Option.isSome_none, hre, hie]
  simp

theorem load_with_snapshot (dom : Domain S E) (ms : MemoryStore S E)
    (agg : ComposedAggregate S) (sn : Snapshot S) (evs : List (Event E))
    (hrs : ms.read_snapshot agg.id dom.aggregate_type = some sn)
    (hre : ms.read_events agg.id dom.aggregate_type sn.version = evs) :
    EventContext.load dom ms agg =
      applyEvents dom (agg.apply_snapshot sn) evs := by
  unfold EventContext.load
  rw [hrs]
  simp only [Option.isSome_some, ComposedAggregate.apply_snapshot]
  simp only [hre]
  simp [hre]

theorem getLastD_myRange (n k : Nat) (hk : k < n) (w : Int) :
    ((myRange 0 n).drop k).getLastD w = (n : Int) := by
  rw [myRange_drop]
  obtain ⟨m, hm⟩ : ∃ m, n - k = m + 1 := ⟨n - k - 1, by omega⟩
  rw [hm]
  simp only [List.getLastD_eq_getLast?]
  rw [myRange_getLast m (0 + (k : Int))]
  simp only [Option.getD_some]
  omega

/-- C1: after a successful run of at least one publish on a fresh
aggregate followed by a commit, loading the aggregate by its id through a
fresh context reconstructs exactly the in-memory aggregate (id, version
and domain state) as it stood just before the commit. -/
theorem c1_load_reconstructs (dom : Domain S E) (md : List (String × String))
    (id : Int) (ps : List (String × E)) (hps : ps ≠ [])
    (s0 : MemoryStore S E)
    (hev : ∀ e ∈ s0.events,
      ¬(e.aggregate_id = id ∧ e.aggregate_type = dom.aggregate_type))
    (hsn : ∀ sn ∈ s0.snapshots,
      ¬(sn.aggregate_id = id ∧ sn.aggregate_type = dom.aggregate_type))
    (ctx1 : EventContext S E) (a1 : ComposedAggregate S)
    (hrun : publishSeq dom ⟨[], [], md⟩ ⟨id, 0, dom.default⟩ ps =
      (ctx1, a1, none)) :
    EventContext.load dom (ctx1.commit s0).2 ⟨id, 0, dom.default⟩ =
      (a1, none) := by
  obtain ⟨hctx, hid, hver, hfold⟩ :=
    publishSeq_ok dom ps [] [] md id 0 dom.default ctx1 a1 hrun
  obtain ⟨aid, av, as⟩ := a1
  simp only at hid hver hfold
  subst hid
  subst hver
  subst hctx
  have hcomm : ((⟨[] ++ snapsFrom dom aid md 0 dom.default ps,
      [] ++ mkEvents dom aid md 0 ps, md⟩ : EventContext S E).commit s0).2 =
      { s0 with
        events := s0.events ++ mkEvents dom aid md 0 ps,
        snapshots := s0.snapshots ++ snapsFrom dom aid md 0 dom.default ps } := by
    simp [EventContext.commit, MemoryStore.write_updates]
  rw [hcomm]
  have hrs : ({ s0 with
      events := s0.events ++ mkEvents dom aid md 0 ps,
      snapshots := s0.snapshots ++ snapsFrom dom aid md 0 dom.default ps } :
        MemoryStore S E).read_snapshot aid dom.aggregate_type =
      (snapsFrom dom aid md 0 dom.default ps).getLast? := by
    apply read_snapshot_split _ aid dom.aggregate_type s0.snapshots
      (snapsFrom dom aid md 0 dom.default ps) rfl
    · intro x hx
      have hxn := hsn x hx
      cases hb : (x.aggregate_id == aid && x.aggregate_type == dom.aggregate_type) with
      | false => rfl
      | true =>
        simp only [Bool.and_eq_true, beq_iff_eq] at hb
        exact absurd hb hxn
    · intro x hx
      obtain ⟨f1, f2, _, _, _⟩ :=
        snapsFrom_mem dom aid md ps 0 dom.default as hfold x hx
      simp [f1, f2]
  have hre : ∀ (w : Int) (k : Nat), w = 0 + (k : Int) →
      ({ s0 with
        events := s0.events ++ mkEvents dom aid md 0 ps,
        snapshots := s0.snapshots ++ snapsFrom dom aid md 0 dom.default ps } :
          MemoryStore S E).read_events aid dom.aggregate_type w =
        (mkEvents dom aid md 0 ps).drop k := by
    intro w k hw
    unfold MemoryStore.read_events
    simp only
    rw [List.filter_append]
    have hz : s0.events.filter (fun e =>
        e.aggregate_id == aid && e.aggregate_type == dom.aggregate_type &&
          decide (w < e.version)) = [] := by
      rw [List.filter_eq_nil_iff]
      intro x hx
      have hxn := hev x hx
      simp only [Bool.and_eq_true, beq_iff_eq, decide_eq_true_eq]
      tauto
    rw [hz, List.nil_append]
    exact mkEvents_filter_drop dom aid md ps 0 w k hw
  have hlenevs : (mkEvents dom aid md 0 ps).length = ps.length :=
    mkEvents_length dom aid md ps 0
  have hmapv : (mkEvents dom aid md 0 ps).map (fun e => e.version) =
      myRange 0 ps.length := mkEvents_map_version dom aid md ps 0
  obtain ⟨m, hm⟩ : ∃ m, ps.length = m + 1 := by
    cases hps2 : ps with
    | nil => exact absurd hps2 hps
    | cons q qs => exact ⟨qs.length, by simp⟩
  cases hlast : (snapsFrom dom aid md 0 dom.default ps).getLast? with
  | none =>
    obtain ⟨e0, evs1, hevs1⟩ :
        ∃ e0 evs1, mkEvents dom aid md 0 ps = e0 :: evs1 := by
      cases hE : mkEvents dom aid md 0 ps with
      | nil => rw [hE, List.length_nil] at hlenevs; omega
      | cons e0 evs1 => exact ⟨e0, evs1, rfl⟩
    rw [load_no_snapshot dom _ ⟨aid, 0, dom.default⟩
      (mkEvents dom aid md 0 ps) (by rw [hrs, hlast]) (hre 0 0 (by simp))
      (by rw [hevs1]; exact List.cons_ne_nil e0 evs1)]
    rw [applyEvents_ok dom (mkEvents dom aid md 0 ps) ⟨aid, 0, dom.default⟩
      as hfold]
    have hv : ((mkEvents dom aid md 0 ps).map (fun e => e.version)).getLastD 0 =
        (ps.length : Int) := by
      rw [hmapv]
      have := getLastD_myRange ps.length 0 (by omega) 0
      simpa using this
    rw [hv]
    simp
  | some snl =>
    have hmem := mem_of_getLast? hlast
    obtain ⟨f1, f2, _f3, _f4, k, hk, hkv, hfold2⟩ :=
      snapsFrom_mem dom aid md ps 0 dom.default as hfold snl hmem
    rw [load_with_snapshot dom _ ⟨aid, 0, dom.default⟩ snl
      ((mkEvents dom aid md 0 ps).drop k) (by rw [hrs, hlast])
      (hre snl.version k hkv)]
    have hfd : foldEvents dom
        ((⟨aid, 0, dom.default⟩ : ComposedAggregate S).apply_snapshot snl).state
        ((mkEvents dom aid md 0 ps).drop k) = .ok as := by
      simp only [ComposedAggregate.apply_snapshot]
      exact foldEvents_drop dom (mkEvents dom aid md 0 ps) k dom.default
        snl.data as hfold2 hfold
    rw [applyEvents_ok dom ((mkEvents dom aid md 0 ps).drop k)
      (ComposedAggregate.apply_snapshot ⟨aid, 0, dom.default⟩ snl) as hfd]
    have hv : (((mkEvents dom aid md 0 ps).drop k).map (fun e => e.version)).getLastD
        ((⟨aid, 0, dom.default⟩ : ComposedAggregate S).apply_snapshot snl).version =
        (ps.length : Int) := by
      rw [List.map_drop, hmapv]
      exact getLastD_myRange ps.length k hk _
    rw [hv]
    simp only [ComposedAggregate.apply_snapshot]
    simp

/-- C1 witness: two credits on a fresh account, committed to the empty
store, load back as the same aggregate (id 1, version 2, balance 3). -/
theorem c1_load_reconstructs_witness :
    EventContext.load acctDom
      ((⟨[⟨1, "account", 1, 1⟩],
        [⟨1, "account", 1, "credited", .credit 1, none⟩,
         ⟨1, "account", 2, "credited", .credit 2, none⟩], []⟩ :
          EventContext Int AcctEvent).commit (MemoryStore.new Int AcctEvent)).2
      ⟨1, 0, 0⟩ = (⟨1, 2, 3⟩, none) := by
  refine c1_load_reconstructs acctDom [] 1
    [("credited", .credit 1), ("credited", .credit 2)] (by decide)
    (MemoryStore.new Int AcctEvent) ?_ ?_ _ ⟨1, 2, 3⟩ (by decide)
  · intro e he
    simp [MemoryStore.new] at he
  · intro sn hsn
    simp [MemoryStore.new] at hsn

end Evercore
